import Mathlib

/-!
Verification of two MLIR-based TensorFlow compiler passes:

* `tf_functional_to_executor.cc` — the structuring pass
  (`FunctionalToExecutorDialectConversion::runOnFunction`), which wraps a
  flat single-block function body into a `tf_executor.graph` containing a
  single `tf_executor.island`.
* `replicate_invariant_op_hoisting.cc` — the hoisting pass
  (`HoistReplicateInvariantOps`, `IsOpReplicateInvariant`,
  `MakeShapeOpInvariant`), which rewrites `tf.Shape` operations inside a
  `tf_device.replicate` region to be replica-invariant and hoists invariant
  operations out of the region.

The IR is embedded shallowly: SSA values are natural-number identifiers,
operations carry operand/result value-id lists, result types and nested
regions.  Mutation is modelled functionally: each pass maps the relevant
IR fragment to the rewritten fragment.
-/

namespace TFMlir

/-- Operation kinds distinguished by the two passes (`isa`/`dyn_cast`
dispatch in the C++ source); every other kind is `other`. -/
inductive OpKind where
  | shape          -- TF::ShapeOp
  | readVariable   -- TF::ReadVariableOp
  | variableShape  -- TF::VariableShapeOp
  | replicate (n : Nat)  -- tf_device::ReplicateOp with its `n` attribute
  | deviceReturn   -- tf_device::ReturnOp (terminator of a replicate block)
  | ret            -- standard ReturnOp (function terminator)
  | graph          -- tf_executor::GraphOp
  | island         -- tf_executor::IslandOp
  | fetch          -- tf_executor::FetchOp
  | yield          -- tf_executor::YieldOp
  | other (tag : Nat)
deriving DecidableEq, Repr

/-- Result types: the structuring pass distinguishes the function's declared
result types from the executor control type appended to an island. -/
inductive Ty where
  | tensor (t : Nat)
  | control
deriving DecidableEq, Repr

mutual
/-- An operation: kind, operand value ids, result value ids, declared result
types, and nested regions. -/
inductive Op : Type where
  | mk : OpKind → List Nat → List Nat → List Ty → List Rgn → Op

/-- A region: an ordered list of blocks. -/
inductive Rgn : Type where
  | mk : List Blk → Rgn

/-- A block: its argument value ids and its ordered list of operations
(the last operation of a well-formed block is its terminator). -/
inductive Blk : Type where
  | mk : List Nat → List Op → Blk
end

def Op.kind : Op → OpKind
  | .mk k _ _ _ _ => k

def Op.operands : Op → List Nat
  | .mk _ o _ _ _ => o

def Op.results : Op → List Nat
  | .mk _ _ r _ _ => r

def Op.resTypes : Op → List Ty
  | .mk _ _ _ t _ => t

def Op.regions : Op → List Rgn
  | .mk _ _ _ _ rs => rs

/-- Replace the operand list of an operation (kind, results, types and
regions unchanged) — the effect of repeated `setOperand` calls. -/
def Op.withOperands : Op → List Nat → Op
  | .mk k _ r t rs, o => .mk k o r t rs

def Rgn.blocks : Rgn → List Blk
  | .mk bs => bs

def Blk.args : Blk → List Nat
  | .mk a _ => a

def Blk.ops : Blk → List Op
  | .mk _ os => os

mutual
/-- All operand value ids reachable by walking the operation and every
operation in its nested regions (the set visited by `op->walk` in
`IsOpReplicateInvariant`). -/
def Op.walkOperands : Op → List Nat
  | .mk _ operands _ _ rs => operands ++ walkOperandsRgns rs

def walkOperandsRgns : List Rgn → List Nat
  | [] => []
  | .mk bs :: rs => walkOperandsBlks bs ++ walkOperandsRgns rs

def walkOperandsBlks : List Blk → List Nat
  | [] => []
  | .mk _ os :: bs => walkOperandsOps os ++ walkOperandsBlks bs

def walkOperandsOps : List Op → List Nat
  | [] => []
  | o :: os => Op.walkOperands o ++ walkOperandsOps os
end

mutual
/-- All value ids defined inside the operation: its results plus the block
arguments and results of every nested operation. -/
def Op.definedValues : Op → List Nat
  | .mk _ _ results _ rs => results ++ definedValuesRgns rs

def definedValuesRgns : List Rgn → List Nat
  | [] => []
  | .mk bs :: rs => definedValuesBlks bs ++ definedValuesRgns rs

def definedValuesBlks : List Blk → List Nat
  | [] => []
  | .mk as os :: bs => as ++ definedValuesOps os ++ definedValuesBlks bs

def definedValuesOps : List Op → List Nat
  | [] => []
  | o :: os => Op.definedValues o ++ definedValuesOps os
end

mutual
/-- Rebind every use of value `a` to value `b` throughout the operation and
its nested regions (`replaceAllUsesWith` restricted to one operation). -/
def Op.substUses (a b : Nat) : Op → Op
  | .mk k operands results t rs =>
      .mk k (operands.map fun v => if v = a then b else v) results t
        (substUsesRgns a b rs)

def substUsesRgns (a b : Nat) : List Rgn → List Rgn
  | [] => []
  | .mk bs :: rs => .mk (substUsesBlks a b bs) :: substUsesRgns a b rs

def substUsesBlks (a b : Nat) : List Blk → List Blk
  | [] => []
  | .mk as os :: bs => .mk as (substUsesOps a b os) :: substUsesBlks a b bs

def substUsesOps (a b : Nat) : List Op → List Op
  | [] => []
  | o :: os => Op.substUses a b o :: substUsesOps a b os
end

/-- Does the operation (or any nested operation) use value `a`? -/
def Op.usesValue (a : Nat) (op : Op) : Bool :=
  op.walkOperands.contains a

/-! ## The structuring pass (`tf_functional_to_executor.cc`) -/

/-- A function: its declared result types and the blocks of its body
region. -/
structure FuncData where
  resultTypes : List Ty
  blocks : List Blk

/-- The `k` result value ids allocated for the new graph construct (the
function has `k` declared result types). -/
def graphResultIds (fresh k : Nat) : List Nat :=
  (List.range k).map (fun i => fresh + i)

/-- The `k + 1` result value ids allocated for the new island construct
(the function's `k` declared result types plus the control result). -/
def islandResultIds (fresh k : Nat) : List Nat :=
  (List.range (k + 1)).map (fun i => fresh + k + i)

/-- The already-structured test of `runOnFunction`: the non-terminator
range holds exactly one operation and it is a `tf_executor.graph`
(`copy_range.begin() != copy_range.end() && std::next(copy_range.begin())
== copy_range.end() && isa<tf_executor::GraphOp>(*copy_range.begin())`). -/
def alreadyGraphBody : List Op → Bool
  | [g] => g.kind == OpKind.graph
  | _ => false

/-- Shallow embedding of
`FunctionalToExecutorDialectConversion::runOnFunction`.

`fresh` supplies the value ids of the newly created graph and island
results (ids `fresh, fresh+1, ...`); the C++ source allocates fresh SSA
values implicitly when building the new operations.

Modelling notes, keyed to the source:
* blocks ≠ 1  → return unchanged (`getBlocks().size() != 1`);
* an empty block has no terminator (`body.getTerminator()` has no meaning
  there; a verified function block always carries one) — modelled as
  returning unchanged;
* the already-a-graph test precedes the `dyn_cast<ReturnOp>` test, as in
  the source;
* `args` captures the return's operands before the body is spliced;
* the island is created at the end of the graph body, then the fetch after
  it; the fetch drops the trailing control result iff the island has more
  than one result (`if (to_fetch.size() != 1) to_fetch.pop_back()`);
* the spliced body keeps its order, with the yield appended after it;
* the final loop `return_op.setOperand(item.index(), item.value())`
  overwrites the return's first `k` operands with the graph's results. -/
def runOnFunction (fresh : Nat) (f : FuncData) : FuncData :=
  match f.blocks with
  | [Blk.mk args ops] =>
    match ops.getLast? with
    | none => f
    | some term =>
      let nonterm := ops.dropLast
      if alreadyGraphBody nonterm then f
      else if term.kind ≠ OpKind.ret then f
      else
        let k := f.resultTypes.length
        let args0 := term.operands
        let graphResults := graphResultIds fresh k
        let islandResults := islandResultIds fresh k
        let toFetch :=
          if islandResults.length ≠ 1 then islandResults.dropLast
          else islandResults
        let yieldOp := Op.mk OpKind.yield args0 [] [] []
        let islandOp := Op.mk OpKind.island [] islandResults
          (f.resultTypes ++ [Ty.control])
          [Rgn.mk [Blk.mk [] (nonterm ++ [yieldOp])]]
        let fetchOp := Op.mk OpKind.fetch toFetch [] [] []
        let graphOp := Op.mk OpKind.graph [] graphResults f.resultTypes
          [Rgn.mk [Blk.mk [] [islandOp, fetchOp]]]
        let newTerm := term.withOperands (graphResults ++ term.operands.drop k)
        { f with blocks := [Blk.mk args [graphOp, newTerm]] }
  | _ => f

/-! ## The hoisting pass (`replicate_invariant_op_hoisting.cc`) -/

/-- Classification of values, as the C++ source obtains it through
`dyn_cast<BlockArgument>` / `getOwner` / `getArgNumber` / `getDefiningOp`:
a value id either is the block argument of the block identified by a block
id, at a given argument index, or it is the result of its defining
operation.  Blocks are identified by ids so that the source's pointer
comparison `block_arg->getOwner() != replicate_block` can be expressed. -/
structure ValEnv where
  isBlockArgOf : Nat → Option (Nat × Nat)
  definingOp : Nat → Option Op

/-- The data of a `tf_device.replicate` operation used by
`MakeShapeOpInvariant`: its `n` attribute (`num_replicas`), its flat
operand list (`replicate_op.getOperand`), and the id of its body block
(`&replicate_op.GetBody()`). -/
structure ReplicateInfo where
  n : Nat
  operands : List Nat
  blockId : Nat

/-- Outcome of `MakeShapeOpInvariant` on one `tf.Shape` operation:
left unchanged, its sole operand rewritten in place, or the operation
replaced by a newly built `tf.VariableShape` operation. -/
inductive ShapeRewrite where
  | unchanged
  | setOperand (v : Nat)
  | replaced (newOp : Op)

/-- Shallow embedding of `MakeShapeOpInvariant`.

`fresh` is the value id given to the result of a newly built
`tf.VariableShape` operation.  Keyed to the source:
* if the shape op's input is a block argument, the rewrite applies only
  when its owner is the replicate block, setting the operand to
  `replicate_op.getOperand(num_replicas * block_arg->getArgNumber())`;
* otherwise, if the input's defining op is a `tf.ReadVariableOp` whose
  `resource` operand (its sole operand) is a block argument owned by the
  replicate block, the shape op is replaced by a `tf.VariableShape` op on
  the replica-0 flat operand, carrying the shape op's result type;
* in every other case nothing happens.

Out-of-range `getOperand` (impossible on well-formed replicates, where
the flat operand count is `n` times the block-argument count) is modelled
by `List.getD` with default `0`. -/
def MakeShapeOpInvariant (env : ValEnv) (rep : ReplicateInfo) (fresh : Nat)
    (shape : Op) : ShapeRewrite :=
  match shape.operands.head? with
  | none => .unchanged
  | some input =>
    match env.isBlockArgOf input with
    | some (owner, argNum) =>
      if owner = rep.blockId then
        .setOperand (rep.operands.getD (rep.n * argNum) 0)
      else .unchanged
    | none =>
      match env.definingOp input with
      | none => .unchanged
      | some inputDef =>
        if inputDef.kind = OpKind.readVariable then
          match inputDef.operands.head? with
          | none => .unchanged
          | some resource =>
            match env.isBlockArgOf resource with
            | some (owner, argNum) =>
              if owner = rep.blockId then
                .replaced (Op.mk OpKind.variableShape
                  [rep.operands.getD (rep.n * argNum) 0] [fresh]
                  shape.resTypes [])
              else .unchanged
            | none => .unchanged
        else .unchanged

/-- Apply the outcome of `MakeShapeOpInvariant` to the block holding the
shape op, written as `pre ++ [shape] ++ post`:
* `unchanged`: the block is untouched;
* `setOperand v`: the shape op's operand list becomes `[v]`, in place;
* `replaced newOp`: `newOp` is inserted at the shape op's position (the
  builder's insertion point is immediately before `shape_op`), every use
  of the shape op's result is rebound to `newOp`'s result
  (`replaceAllUsesWith`), and the shape op is erased. -/
def applyShapeRewriteInBlock (rw : ShapeRewrite) (pre : List Op)
    (shape : Op) (post : List Op) : List Op :=
  match rw with
  | .unchanged => pre ++ [shape] ++ post
  | .setOperand v => pre ++ [shape.withOperands [v]] ++ post
  | .replaced newOp =>
    match shape.results.head?, newOp.results.head? with
    | some res, some newRes =>
        substUsesOps res newRes pre ++ [newOp] ++ substUsesOps res newRes post
    | _, _ => pre ++ [newOp] ++ post

/-- Is the value a block argument owned by the replicate block?  (the
first guard of `MakeShapeOpInvariant`). -/
def isReplicateBlockArg (env : ValEnv) (rep : ReplicateInfo) (v : Nat) : Bool :=
  match env.isBlockArgOf v with
  | some (owner, _) => owner == rep.blockId
  | none => false

/-- Is the value the result of a `tf.ReadVariableOp` whose resource
operand is a block argument owned by the replicate block?  (the second
guard of `MakeShapeOpInvariant`). -/
def isReadOfReplicateBlockArg (env : ValEnv) (rep : ReplicateInfo) (v : Nat) : Bool :=
  match env.isBlockArgOf v with
  | some _ => false
  | none =>
    match env.definingOp v with
    | none => false
    | some d =>
      decide (d.kind = OpKind.readVariable) &&
        (match d.operands.head? with
         | some resource => isReplicateBlockArg env rep resource
         | none => false)

/-- Shallow embedding of `IsOpReplicateInvariant`.

The C++ walks the operation and all operations in its nested regions and
checks, for every operand, that the operand's parent region is a proper
ancestor of the replicate region (`parent_region->isProperAncestor(
replicate_region)`).  Here `outer` is the list of value ids whose
defining region is a proper ancestor of the replicate region; block
arguments and operation results of the replicate block, and values
defined in regions nested below it, are never in `outer`. -/
def IsOpReplicateInvariant (outer : List Nat) (op : Op) : Bool :=
  op.walkOperands.all (fun v => outer.contains v)

/-- The hoisting loop of `HoistReplicateInvariantOps`, run over a snapshot
of the replicate block's operations (`llvm::make_early_inc_range`):
a `tf_device.return` is skipped; an invariant operation is moved out
(`inner_op.moveBefore(replicate_op)`), which places its results in the
replicate's parent region — a proper ancestor of the replicate region —
so its result ids join `outer` for the operations checked after it; any
other operation stays.  Returns the hoisted operations in hoisting order,
the operations remaining in the block in order, and the final `outer`. -/
def hoistLoop (outer : List Nat) : List Op → List Op × List Op × List Nat
  | [] => ([], [], outer)
  | op :: rest =>
    if op.kind = OpKind.deviceReturn then
      let p := hoistLoop outer rest
      (p.1, op :: p.2.1, p.2.2)
    else if IsOpReplicateInvariant outer op then
      let p := hoistLoop (outer ++ op.results) rest
      (op :: p.1, p.2.1, p.2.2)
    else
      let p := hoistLoop outer rest
      (p.1, op :: p.2.1, p.2.2)

/-- `HoistReplicateInvariantOps` (dependency-based hoisting part) lifted
to the replicate's parent block: the parent block holds
`pre ++ [repOp] ++ post`; each hoisted operation is moved immediately
before the replicate op, preserving the original order, and the replicate
keeps the remaining operations in its body. -/
def HoistReplicateInvariantOps (outer : List Nat) (pre : List Op)
    (repOp : Op) (post : List Op) : List Op :=
  match repOp with
  | Op.mk k ops res tys [Rgn.mk [Blk.mk bargs body]] =>
    let p := hoistLoop outer body
    pre ++ p.1 ++ [Op.mk k ops res tys [Rgn.mk [Blk.mk bargs p.2.1]]] ++ post
  | _ => pre ++ [repOp] ++ post

/-! ## Statement helpers -/

/-- A placeholder operation, used as the default of list lookups in
statements. -/
def opNil : Op := Op.mk (OpKind.other 0) [] [] [] []

/-- The operations of a function whose body is a single block. -/
def FuncData.soleBlockOps (f : FuncData) : List Op :=
  match f.blocks with
  | [Blk.mk _ os] => os
  | _ => []

/-- The operations in the single block of an operation's single region
(the shape of the graph and island constructs built by the structuring
pass, and of a replicate's body). -/
def Op.innerOps : Op → List Op
  | .mk _ _ _ _ [Rgn.mk [Blk.mk _ os]] => os
  | _ => []

/-- Value ids used as operands, anywhere inside the function. -/
def FuncData.usedValues (f : FuncData) : List Nat :=
  walkOperandsBlks f.blocks

/-- Value ids defined (block arguments and operation results), anywhere
inside the function. -/
def FuncData.definedValues (f : FuncData) : List Nat :=
  definedValuesBlks f.blocks

/-- Invariant 1 of the data model — no dangling uses — at function level:
every operand reference resolves to a definition, either one of the
externally supplied values `ext` (function-external definitions) or a
definition inside the function. -/
def WellUsed (ext : List Nat) (f : FuncData) : Prop :=
  ∀ v ∈ f.usedValues, v ∈ ext ∨ v ∈ f.definedValues

/-- No dangling uses, at the level of one block's operation list: `ext`
holds the values defined outside the block (its own arguments included). -/
def BlockWellUsed (ext : List Nat) (ops : List Op) : Prop :=
  ∀ v ∈ walkOperandsOps ops, v ∈ ext ∨ v ∈ definedValuesOps ops

/-- Claim-side description of dependency-based hoisting: the replicate
body is processed top to bottom, `outer` being the set of value ids whose
defining region is a proper ancestor of the replicate region.  A
`tf_device.return` terminator is never relocated.  Any other operation is
relocated exactly when every operand transitively reachable by walking it
and its nested regions is defined in a proper ancestor of the replicate
region; relocating it puts its results into the replicate's parent block,
so they become proper-ancestor-defined for the operations processed after
it.  `Hoisting outer body h r` relates the body to the relocated
operations `h` (in original relative order) and the remaining ones `r`. -/
inductive Hoisting : List Nat → List Op → List Op → List Op → Prop where
  | nil (outer : List Nat) : Hoisting outer [] [] []
  | term (outer : List Nat) (op : Op) (rest h r : List Op) :
      op.kind = OpKind.deviceReturn → Hoisting outer rest h r →
      Hoisting outer (op :: rest) h (op :: r)
  | inv (outer : List Nat) (op : Op) (rest h r : List Op) :
      op.kind ≠ OpKind.deviceReturn →
      (∀ v ∈ op.walkOperands, v ∈ outer) →
      Hoisting (outer ++ op.results) rest h r →
      Hoisting outer (op :: rest) (op :: h) r
  | notInv (outer : List Nat) (op : Op) (rest h r : List Op) :
      op.kind ≠ OpKind.deviceReturn →
      ¬(∀ v ∈ op.walkOperands, v ∈ outer) →
      Hoisting outer rest h r →
      Hoisting outer (op :: rest) h (op :: r)

theorem Op.kind_withOperands (op : Op) (o : List Nat) :
    (op.withOperands o).kind = op.kind := by
  cases op with
  | mk k oo r t rs => rfl

theorem Op.operands_withOperands (op : Op) (o : List Nat) :
    (op.withOperands o).operands = o := by
  cases op with
  | mk k oo r t rs => rfl

theorem Op.results_withOperands (op : Op) (o : List Nat) :
    (op.withOperands o).results = op.results := by
  cases op with
  | mk k oo r t rs => rfl

/-! ## Behaviour of the structuring pass -/

theorem runOnFunction_not_single_block (fresh : Nat) (tys : List Ty)
    (bs : List Blk) (h : bs.length ≠ 1) :
    runOnFunction fresh ⟨tys, bs⟩ = ⟨tys, bs⟩ := by
  rcases bs with _ | ⟨⟨a1, o1⟩, _ | ⟨b2, rest⟩⟩
  · rfl
  · simp at h
  · rfl

theorem runOnFunction_noTerminator (fresh : Nat) (tys : List Ty)
    (args : List Nat) (ops : List Op) (h : ops.getLast? = none) :
    runOnFunction fresh ⟨tys, [Blk.mk args ops]⟩ = ⟨tys, [Blk.mk args ops]⟩ := by
  simp [runOnFunction, h]

theorem runOnFunction_alreadyGraph (fresh : Nat) (tys : List Ty)
    (args : List Nat) (ops : List Op) (term : Op)
    (hlast : ops.getLast? = some term)
    (hgraph : alreadyGraphBody ops.dropLast = true) :
    runOnFunction fresh ⟨tys, [Blk.mk args ops]⟩ = ⟨tys, [Blk.mk args ops]⟩ := by
  simp [runOnFunction, hlast, hgraph]

theorem runOnFunction_notReturn (fresh : Nat) (tys : List Ty)
    (args : List Nat) (ops : List Op) (term : Op)
    (hlast : ops.getLast? = some term)
    (hret : term.kind ≠ OpKind.ret) :
    runOnFunction fresh ⟨tys, [Blk.mk args ops]⟩ = ⟨tys, [Blk.mk args ops]⟩ := by
  simp only [runOnFunction, hlast]
  split
  · rfl
  · simp [hret]

/-- Full description of a successful structuring run. -/
theorem runOnFunction_success_eq (fresh : Nat) (tys : List Ty) (args : List Nat)
    (ops : List Op) (term : Op)
    (hlast : ops.getLast? = some term)
    (hgraph : alreadyGraphBody ops.dropLast = false)
    (hret : term.kind = OpKind.ret) :
    runOnFunction fresh ⟨tys, [Blk.mk args ops]⟩ =
      ⟨tys, [Blk.mk args
        [Op.mk OpKind.graph [] (graphResultIds fresh tys.length) tys
          [Rgn.mk [Blk.mk []
            [Op.mk OpKind.island []
               (islandResultIds fresh tys.length)
               (tys ++ [Ty.control])
               [Rgn.mk [Blk.mk []
                 (ops.dropLast ++ [Op.mk OpKind.yield term.operands [] [] []])]],
             Op.mk OpKind.fetch
               (if (islandResultIds fresh tys.length).length ≠ 1
                then (islandResultIds fresh tys.length).dropLast
                else islandResultIds fresh tys.length)
               [] [] []]]],
         term.withOperands
           ((graphResultIds fresh tys.length) ++ term.operands.drop tys.length)]]⟩ := by
  simp only [runOnFunction, hlast, hgraph, hret]
  simp

theorem islandResultIds_length (fresh k : Nat) :
    (islandResultIds fresh k).length = k + 1 := by
  simp [islandResultIds]

/-- C4: the structuring pass is idempotent: running it twice on any
function yields the same IR as running it once; on a function whose
single block's only non-terminator operation is already a graph construct
the pass returns with no mutation. -/
theorem structuringPass_idempotent :
    (∀ fresh1 fresh2 : Nat, ∀ f : FuncData,
        runOnFunction fresh2 (runOnFunction fresh1 f) = runOnFunction fresh1 f) ∧
    (∀ fresh : Nat, ∀ tys : List Ty, ∀ args : List Nat, ∀ ops : List Op,
        alreadyGraphBody ops.dropLast = true →
        runOnFunction fresh ⟨tys, [Blk.mk args ops]⟩ = ⟨tys, [Blk.mk args ops]⟩) := by
  constructor
  · intro fresh1 fresh2 f
    obtain ⟨tys, bs⟩ := f
    rcases bs with _ | ⟨⟨args, ops⟩, _ | ⟨b2, rest⟩⟩
    · rw [runOnFunction_not_single_block fresh1 _ _ (by simp)]
      exact runOnFunction_not_single_block fresh2 _ _ (by simp)
    · cases hl : ops.getLast? with
      | none =>
        rw [runOnFunction_noTerminator _ _ _ _ hl, runOnFunction_noTerminator _ _ _ _ hl]
      | some term =>
        cases hg : alreadyGraphBody ops.dropLast with
        | true =>
          rw [runOnFunction_alreadyGraph _ _ _ _ _ hl hg,
            runOnFunction_alreadyGraph _ _ _ _ _ hl hg]
        | false =>
          by_cases hr : term.kind = OpKind.ret
          · rw [runOnFunction_success_eq _ _ _ _ _ hl hg hr]
            exact runOnFunction_alreadyGraph _ _ _ _ _ rfl rfl
          · rw [runOnFunction_notReturn _ _ _ _ _ hl hr,
              runOnFunction_notReturn _ _ _ _ _ hl hr]
    · rw [runOnFunction_not_single_block fresh1 _ _ (by simp)]
      exact runOnFunction_not_single_block fresh2 _ _ (by simp)
  · intro fresh tys args ops hgraph
    cases hl : ops.getLast? with
    | none => exact runOnFunction_noTerminator fresh tys args ops hl
    | some term => exact runOnFunction_alreadyGraph fresh tys args ops term hl hgraph

/-- C4 witness: a concrete run of the pass followed by a second run, and
a concrete already-structured function left unchanged. -/
theorem structuringPass_idempotent_witness :
    runOnFunction 3 (runOnFunction 2
        ⟨[Ty.tensor 0], [Blk.mk [1] [Op.mk (OpKind.other 7) [1] [2] [Ty.tensor 0] [],
          Op.mk OpKind.ret [2] [] [] []]]⟩)
      = runOnFunction 2
        ⟨[Ty.tensor 0], [Blk.mk [1] [Op.mk (OpKind.other 7) [1] [2] [Ty.tensor 0] [],
          Op.mk OpKind.ret [2] [] [] []]]⟩ ∧
    alreadyGraphBody ([Op.mk OpKind.graph [] [] [] [],
        Op.mk OpKind.ret [] [] [] []].dropLast) = true ∧
    runOnFunction 5 ⟨[], [Blk.mk []
        [Op.mk OpKind.graph [] [] [] [], Op.mk OpKind.ret [] [] [] []]]⟩
      = ⟨[], [Blk.mk [] [Op.mk OpKind.graph [] [] [] [], Op.mk OpKind.ret [] [] [] []]]⟩ :=
  ⟨structuringPass_idempotent.1 2 3 _, rfl,
    structuringPass_idempotent.2 5 [] [] _ rfl⟩

/-- C5: on a function with more than one block, or whose single block's
terminator is not a plain return, the structuring pass performs no
mutation at all: it returns normally and the function is unchanged. -/
theorem structuringPass_inapplicable_noop :
    (∀ fresh : Nat, ∀ f : FuncData, f.blocks.length ≠ 1 → runOnFunction fresh f = f) ∧
    (∀ fresh : Nat, ∀ tys : List Ty, ∀ args : List Nat, ∀ ops : List Op, ∀ term : Op,
        ops.getLast? = some term → term.kind ≠ OpKind.ret →
        runOnFunction fresh ⟨tys, [Blk.mk args ops]⟩ = ⟨tys, [Blk.mk args ops]⟩) := by
  constructor
  · intro fresh f h
    obtain ⟨tys, bs⟩ := f
    exact runOnFunction_not_single_block fresh tys bs (by simpa using h)
  · intro fresh tys args ops term hlast hret
    exact runOnFunction_notReturn fresh tys args ops term hlast hret

/-- C5 witness: a concrete two-block function and a concrete function
ending in a yield rather than a return, both left unchanged. -/
theorem structuringPass_inapplicable_noop_witness :
    (⟨[], [Blk.mk [] [], Blk.mk [] []]⟩ : FuncData).blocks.length ≠ 1 ∧
    runOnFunction 4 ⟨[], [Blk.mk [] [], Blk.mk [] []]⟩
      = ⟨[], [Blk.mk [] [], Blk.mk [] []]⟩ ∧
    ([Op.mk OpKind.yield [] [] [] []].getLast? = some (Op.mk OpKind.yield [] [] [] [])) ∧
    (Op.mk OpKind.yield [] [] [] []).kind ≠ OpKind.ret ∧
    runOnFunction 4 ⟨[], [Blk.mk [] [Op.mk OpKind.yield [] [] [] []]]⟩
      = ⟨[], [Blk.mk [] [Op.mk OpKind.yield [] [] [] []]]⟩ :=
  ⟨by decide, structuringPass_inapplicable_noop.1 4 _ (by decide), rfl, by decide,
    structuringPass_inapplicable_noop.2 4 [] [] _ _ rfl (by decide)⟩

/-- C7: after a successful structuring run, the yield appended at the end
of the island's inner block carries exactly the original return's
operands, and the return's operands become, position by position, the
results of the new graph construct. -/
theorem structuring_yield_and_return_wiring (fresh : Nat) (tys : List Ty)
    (args : List Nat) (ops : List Op) (term : Op)
    (hlast : ops.getLast? = some term)
    (hgraph : alreadyGraphBody ops.dropLast = false)
    (hret : term.kind = OpKind.ret)
    (hlen : term.operands.length = tys.length) :
    (((runOnFunction fresh ⟨tys, [Blk.mk args ops]⟩).soleBlockOps.getD 0 opNil).innerOps.getD 0
          opNil).innerOps.getLast? = some (Op.mk OpKind.yield term.operands [] [] []) ∧
    ((runOnFunction fresh ⟨tys, [Blk.mk args ops]⟩).soleBlockOps.getD 1 opNil).operands
        = ((runOnFunction fresh ⟨tys, [Blk.mk args ops]⟩).soleBlockOps.getD 0 opNil).results := by
  rw [runOnFunction_success_eq fresh tys args ops term hlast hgraph hret]
  have hdrop : term.operands.drop tys.length = [] := by
    rw [← hlen]; exact List.drop_length _
  constructor
  · simp [FuncData.soleBlockOps, Op.innerOps]
  · simp [FuncData.soleBlockOps, Op.innerOps, Op.operands_withOperands, Op.results, hdrop]

/-- C7 witness: the wiring facts at a concrete one-result function. -/
theorem structuring_yield_and_return_wiring_witness :
    ([Op.mk (OpKind.other 3) [1] [2] [Ty.tensor 0] [],
        Op.mk OpKind.ret [2] [] [] []].getLast? = some (Op.mk OpKind.ret [2] [] [] [])) ∧
    alreadyGraphBody ([Op.mk (OpKind.other 3) [1] [2] [Ty.tensor 0] [],
        Op.mk OpKind.ret [2] [] [] []].dropLast) = false ∧
    (((runOnFunction 10 ⟨[Ty.tensor 0], [Blk.mk [1]
            [Op.mk (OpKind.other 3) [1] [2] [Ty.tensor 0] [],
             Op.mk OpKind.ret [2] [] [] []]]⟩).soleBlockOps.getD 0 opNil).innerOps.getD 0
        opNil).innerOps.getLast? = some (Op.mk OpKind.yield [2] [] [] []) ∧
    ((runOnFunction 10 ⟨[Ty.tensor 0], [Blk.mk [1]
            [Op.mk (OpKind.other 3) [1] [2] [Ty.tensor 0] [],
             Op.mk OpKind.ret [2] [] [] []]]⟩).soleBlockOps.getD 1 opNil).operands
      = ((runOnFunction 10 ⟨[Ty.tensor 0], [Blk.mk [1]
            [Op.mk (OpKind.other 3) [1] [2] [Ty.tensor 0] [],
             Op.mk OpKind.ret [2] [] [] []]]⟩).soleBlockOps.getD 0 opNil).results :=
  ⟨rfl, rfl,
    (structuring_yield_and_return_wiring 10 [Ty.tensor 0] [1] [Op.mk (OpKind.other 3) [1] [2] [Ty.tensor 0] [], Op.mk OpKind.ret [2] [] [] []] (Op.mk OpKind.ret [2] [] [] []) rfl rfl rfl rfl).1,
    (structuring_yield_and_return_wiring 10 [Ty.tensor 0] [1] [Op.mk (OpKind.other 3) [1] [2] [Ty.tensor 0] [], Op.mk OpKind.ret [2] [] [] []] (Op.mk OpKind.ret [2] [] [] []) rfl rfl rfl rfl).2⟩

/-- C8: after a successful structuring run, the fetch carries the
island's results with the trailing control result dropped exactly when
the island has more than one result: for a function with zero declared
results the fetch carries the island's single (control) result, and for
`k > 0` declared results exactly the island's first `k` results. -/
theorem structuring_fetch_operands (fresh : Nat) (tys : List Ty)
    (args : List Nat) (ops : List Op) (term : Op)
    (hlast : ops.getLast? = some term)
    (hgraph : alreadyGraphBody ops.dropLast = false)
    (hret : term.kind = OpKind.ret) :
    (((runOnFunction fresh ⟨tys, [Blk.mk args ops]⟩).soleBlockOps.getD 0 opNil).innerOps.getD 0
        opNil).results.length = tys.length + 1 ∧
    (((runOnFunction fresh ⟨tys, [Blk.mk args ops]⟩).soleBlockOps.getD 0 opNil).innerOps.getD 1
        opNil).operands =
      (if 1 < (((runOnFunction fresh ⟨tys, [Blk.mk args ops]⟩).soleBlockOps.getD 0
                  opNil).innerOps.getD 0 opNil).results.length
       then (((runOnFunction fresh ⟨tys, [Blk.mk args ops]⟩).soleBlockOps.getD 0
                opNil).innerOps.getD 0 opNil).results.dropLast
       else (((runOnFunction fresh ⟨tys, [Blk.mk args ops]⟩).soleBlockOps.getD 0
                opNil).innerOps.getD 0 opNil).results) ∧
    (tys.length = 0 →
      (((runOnFunction fresh ⟨tys, [Blk.mk args ops]⟩).soleBlockOps.getD 0 opNil).innerOps.getD 1
          opNil).operands =
        (((runOnFunction fresh ⟨tys, [Blk.mk args ops]⟩).soleBlockOps.getD 0 opNil).innerOps.getD 0
            opNil).results ∧
      (((runOnFunction fresh ⟨tys, [Blk.mk args ops]⟩).soleBlockOps.getD 0 opNil).innerOps.getD 0
          opNil).results.length = 1) ∧
    (0 < tys.length →
      (((runOnFunction fresh ⟨tys, [Blk.mk args ops]⟩).soleBlockOps.getD 0 opNil).innerOps.getD 1
          opNil).operands =
        (((runOnFunction fresh ⟨tys, [Blk.mk args ops]⟩).soleBlockOps.getD 0 opNil).innerOps.getD 0
            opNil).results.take tys.length) := by
  rw [runOnFunction_success_eq fresh tys args ops term hlast hgraph hret]
  simp only [FuncData.soleBlockOps, Op.innerOps, List.getD_cons_zero, List.getD_cons_succ,
    Op.results, Op.operands]
  refine ⟨islandResultIds_length fresh tys.length, ?_, ?_, ?_⟩
  · cases k : tys.length with
    | zero => simp [islandResultIds]
    | succ n => simp [islandResultIds_length]
  · intro h0
    rw [h0]
    simp [islandResultIds]
  · intro hpos
    have h1 : ¬(islandResultIds fresh tys.length).length = 1 := by
      rw [islandResultIds_length]; omega
    rw [if_pos h1, List.dropLast_eq_take, islandResultIds_length,
      Nat.add_sub_cancel]

/-- C8 witness: the fetch facts at a concrete one-result function. -/
theorem structuring_fetch_operands_witness :
    ([Op.mk (OpKind.other 3) [1] [2] [Ty.tensor 0] [],
        Op.mk OpKind.ret [2] [] [] []].getLast? = some (Op.mk OpKind.ret [2] [] [] [])) ∧
    (((runOnFunction 11 ⟨[Ty.tensor 0], [Blk.mk [1]
            [Op.mk (OpKind.other 3) [1] [2] [Ty.tensor 0] [],
             Op.mk OpKind.ret [2] [] [] []]]⟩).soleBlockOps.getD 0 opNil).innerOps.getD 0
        opNil).results.length = 1 + 1 ∧
    (0 < ([Ty.tensor 0] : List Ty).length →
      (((runOnFunction 11 ⟨[Ty.tensor 0], [Blk.mk [1]
              [Op.mk (OpKind.other 3) [1] [2] [Ty.tensor 0] [],
               Op.mk OpKind.ret [2] [] [] []]]⟩).soleBlockOps.getD 0 opNil).innerOps.getD 1
          opNil).operands =
        (((runOnFunction 11 ⟨[Ty.tensor 0], [Blk.mk [1]
              [Op.mk (OpKind.other 3) [1] [2] [Ty.tensor 0] [],
               Op.mk OpKind.ret [2] [] [] []]]⟩).soleBlockOps.getD 0 opNil).innerOps.getD 0
            opNil).results.take 1) :=
  ⟨rfl,
    (structuring_fetch_operands 11 [Ty.tensor 0] [1] [Op.mk (OpKind.other 3) [1] [2] [Ty.tensor 0] [], Op.mk OpKind.ret [2] [] [] []] (Op.mk OpKind.ret [2] [] [] []) rfl rfl rfl).1,
    (structuring_fetch_operands 11 [Ty.tensor 0] [1] [Op.mk (OpKind.other 3) [1] [2] [Ty.tensor 0] [], Op.mk OpKind.ret [2] [] [] []] (Op.mk OpKind.ret [2] [] [] []) rfl rfl rfl).2.2.2⟩

/-- C9: a successful structuring run inserts at the start of the block a
graph construct whose declared result types are the function's result
types, containing an island whose declared result types are the
function's result types plus one control result, splices every original
non-terminator operation into the island's inner block in order, and
leaves the function block holding only the graph construct followed by
the return terminator. -/
theorem structuring_construction (fresh : Nat) (tys : List Ty)
    (args : List Nat) (ops : List Op) (term : Op)
    (hlast : ops.getLast? = some term)
    (hgraph : alreadyGraphBody ops.dropLast = false)
    (hret : term.kind = OpKind.ret) :
    (runOnFunction fresh ⟨tys, [Blk.mk args ops]⟩).blocks.length = 1 ∧
    (runOnFunction fresh ⟨tys, [Blk.mk args ops]⟩).resultTypes = tys ∧
    (runOnFunction fresh ⟨tys, [Blk.mk args ops]⟩).soleBlockOps.map Op.kind
        = [OpKind.graph, OpKind.ret] ∧
    ((runOnFunction fresh ⟨tys, [Blk.mk args ops]⟩).soleBlockOps.getD 0 opNil).resTypes = tys ∧
    ((runOnFunction fresh ⟨tys, [Blk.mk args ops]⟩).soleBlockOps.getD 0 opNil).results
        = graphResultIds fresh tys.length ∧
    ((runOnFunction fresh ⟨tys, [Blk.mk args ops]⟩).soleBlockOps.getD 0 opNil).innerOps.map Op.kind
        = [OpKind.island, OpKind.fetch] ∧
    (((runOnFunction fresh ⟨tys, [Blk.mk args ops]⟩).soleBlockOps.getD 0 opNil).innerOps.getD 0
        opNil).resTypes = tys ++ [Ty.control] ∧
    (((runOnFunction fresh ⟨tys, [Blk.mk args ops]⟩).soleBlockOps.getD 0 opNil).innerOps.getD 0
        opNil).innerOps
      = ops.dropLast ++ [Op.mk OpKind.yield term.operands [] [] []] := by
  rw [runOnFunction_success_eq fresh tys args ops term hlast hgraph hret]
  refine ⟨rfl, rfl, ?_, rfl, rfl, rfl, rfl, rfl⟩
  simp only [FuncData.soleBlockOps, List.map_cons, List.map_nil]
  rw [show (Op.mk OpKind.graph [] (graphResultIds fresh tys.length) tys
      [Rgn.mk [Blk.mk []
        [Op.mk OpKind.island [] (islandResultIds fresh tys.length) (tys ++ [Ty.control])
          [Rgn.mk [Blk.mk [] (ops.dropLast ++ [Op.mk OpKind.yield term.operands [] [] []])]],
         Op.mk OpKind.fetch
           (if (islandResultIds fresh tys.length).length ≠ 1
            then (islandResultIds fresh tys.length).dropLast
            else islandResultIds fresh tys.length) [] [] []]]]).kind = OpKind.graph from rfl,
    Op.kind_withOperands, hret]

/-- C9 witness: the construction facts at a concrete one-result
function. -/
theorem structuring_construction_witness :
    ([Op.mk (OpKind.other 3) [1] [2] [Ty.tensor 0] [],
        Op.mk OpKind.ret [2] [] [] []].getLast? = some (Op.mk OpKind.ret [2] [] [] [])) ∧
    (runOnFunction 12 ⟨[Ty.tensor 0], [Blk.mk [1]
        [Op.mk (OpKind.other 3) [1] [2] [Ty.tensor 0] [],
         Op.mk OpKind.ret [2] [] [] []]]⟩).soleBlockOps.map Op.kind
      = [OpKind.graph, OpKind.ret] ∧
    (((runOnFunction 12 ⟨[Ty.tensor 0], [Blk.mk [1]
          [Op.mk (OpKind.other 3) [1] [2] [Ty.tensor 0] [],
           Op.mk OpKind.ret [2] [] [] []]]⟩).soleBlockOps.getD 0 opNil).innerOps.getD 0
        opNil).innerOps
      = [Op.mk (OpKind.other 3) [1] [2] [Ty.tensor 0] [],
         Op.mk OpKind.yield [2] [] [] []] :=
  ⟨rfl,
    (structuring_construction 12 [Ty.tensor 0] [1] [Op.mk (OpKind.other 3) [1] [2] [Ty.tensor 0] [], Op.mk OpKind.ret [2] [] [] []] (Op.mk OpKind.ret [2] [] [] []) rfl rfl rfl).2.2.1,
    (structuring_construction 12 [Ty.tensor 0] [1] [Op.mk (OpKind.other 3) [1] [2] [Ty.tensor 0] [], Op.mk OpKind.ret [2] [] [] []] (Op.mk OpKind.ret [2] [] [] []) rfl rfl rfl).2.2.2.2.2.2.2⟩

/-! ## Behaviour of the hoisting pass -/

theorem isOpReplicateInvariant_iff (outer : List Nat) (op : Op) :
    IsOpReplicateInvariant outer op = true ↔ ∀ v ∈ op.walkOperands, v ∈ outer := by
  simp [IsOpReplicateInvariant, List.all_eq_true]

theorem hoistLoop_fst_sublist (outer : List Nat) (body : List Op) :
    (hoistLoop outer body).1.Sublist body := by
  induction body generalizing outer with
  | nil => simp [hoistLoop]
  | cons op rest ih =>
    simp only [hoistLoop]
    split
    · exact (ih outer).cons _
    · split
      · exact (ih _).cons₂ _
      · exact (ih outer).cons _

theorem hoistLoop_snd_sublist (outer : List Nat) (body : List Op) :
    (hoistLoop outer body).2.1.Sublist body := by
  induction body generalizing outer with
  | nil => simp [hoistLoop]
  | cons op rest ih =>
    simp only [hoistLoop]
    split
    · exact (ih outer).cons₂ _
    · split
      · exact (ih _).cons _
      · exact (ih outer).cons₂ _

theorem hoistLoop_term_mem (outer : List Nat) (body : List Op) (op : Op)
    (hmem : op ∈ body) (hk : op.kind = OpKind.deviceReturn) :
    op ∈ (hoistLoop outer body).2.1 := by
  induction body generalizing outer with
  | nil => cases hmem
  | cons op0 rest ih =>
    simp only [hoistLoop]
    rcases List.mem_cons.mp hmem with heq | hrest
    · subst heq
      rw [if_pos hk]
      exact List.mem_cons_self _ _
    · split
      · exact List.mem_cons_of_mem _ (ih _ hrest)
      · split
        · exact ih _ hrest
        · exact List.mem_cons_of_mem _ (ih _ hrest)

theorem hoisting_to_hoistLoop (outer : List Nat) (body h r : List Op)
    (hh : Hoisting outer body h r) :
    (hoistLoop outer body).1 = h ∧ (hoistLoop outer body).2.1 = r := by
  induction hh with
  | nil outer => exact ⟨rfl, rfl⟩
  | term outer op rest h r hk hrec ih =>
    simp only [hoistLoop, if_pos hk]
    exact ⟨ih.1, by rw [ih.2]⟩
  | inv outer op rest h r hk hinv hrec ih =>
    have hb : IsOpReplicateInvariant outer op = true :=
      (isOpReplicateInvariant_iff outer op).mpr hinv
    simp only [hoistLoop, if_neg hk, if_pos hb]
    exact ⟨by rw [ih.1], ih.2⟩
  | notInv outer op rest h r hk hninv hrec ih =>
    have hb : ¬IsOpReplicateInvariant outer op = true := fun hc =>
      hninv ((isOpReplicateInvariant_iff outer op).mp hc)
    simp only [hoistLoop, if_neg hk, if_neg hb]
    exact ⟨ih.1, by rw [ih.2]⟩

theorem hoistLoop_to_hoisting (outer : List Nat) (body : List Op) :
    Hoisting outer body (hoistLoop outer body).1 (hoistLoop outer body).2.1 := by
  induction body generalizing outer with
  | nil => exact Hoisting.nil outer
  | cons op rest ih =>
    by_cases hk : op.kind = OpKind.deviceReturn
    · simpa only [hoistLoop, if_pos hk] using
        Hoisting.term outer op rest _ _ hk (ih outer)
    · by_cases hb : IsOpReplicateInvariant outer op = true
      · simpa only [hoistLoop, if_neg hk, if_pos hb] using
          Hoisting.inv outer op rest _ _ hk
            ((isOpReplicateInvariant_iff outer op).mp hb) (ih _)
      · simpa only [hoistLoop, if_neg hk, if_neg hb] using
          Hoisting.notInv outer op rest _ _ hk
            (fun hc => hb ((isOpReplicateInvariant_iff outer op).mpr hc)) (ih outer)

/-- C1: in the dependency-based hoisting, a non-terminator operation
directly inside the replicate block is relocated to immediately precede
the replicate construct in its parent block exactly when every operand
transitively reachable by walking it and its nested regions is defined in
a proper ancestor of the replicate region (at the moment it is
processed); `tf_device.return` terminators are never relocated; hoisted
operations keep their original relative order (they form a sublist of the
body). -/
theorem hoisting_characterization (outer : List Nat) (body h r : List Op) :
    (Hoisting outer body h r ↔
      (hoistLoop outer body).1 = h ∧ (hoistLoop outer body).2.1 = r) ∧
    (hoistLoop outer body).1.Sublist body ∧
    (hoistLoop outer body).2.1.Sublist body ∧
    (∀ op ∈ body, op.kind = OpKind.deviceReturn → op ∈ (hoistLoop outer body).2.1) ∧
    (∀ pre post : List Op, ∀ k : OpKind, ∀ ops res : List Nat, ∀ tys : List Ty,
      ∀ bargs : List Nat,
      HoistReplicateInvariantOps outer pre
          (Op.mk k ops res tys [Rgn.mk [Blk.mk bargs body]]) post
        = pre ++ (hoistLoop outer body).1
            ++ [Op.mk k ops res tys [Rgn.mk [Blk.mk bargs (hoistLoop outer body).2.1]]]
            ++ post) := by
  refine ⟨⟨hoisting_to_hoistLoop outer body h r, ?_⟩, hoistLoop_fst_sublist outer body,
    hoistLoop_snd_sublist outer body,
    fun op hm hk => hoistLoop_term_mem outer body op hm hk,
    fun pre post k ops res tys bargs => rfl⟩
  rintro ⟨h1, h2⟩
  rw [← h1, ← h2]
  exact hoistLoop_to_hoisting outer body

/-- C1 witness: a concrete three-op body over one outer value; the first
two ops are hoisted in order (the second becomes invariant once the first
has been moved out), the terminator stays. -/
theorem hoisting_characterization_witness :
    Hoisting [5]
      [Op.mk (OpKind.other 1) [5] [6] [] [], Op.mk (OpKind.other 2) [6] [7] [] [],
       Op.mk OpKind.deviceReturn [7] [] [] []]
      [Op.mk (OpKind.other 1) [5] [6] [] [], Op.mk (OpKind.other 2) [6] [7] [] []]
      [Op.mk OpKind.deviceReturn [7] [] [] []] ∧
    Op.mk OpKind.deviceReturn [7] [] [] [] ∈
      (hoistLoop [5]
        [Op.mk (OpKind.other 1) [5] [6] [] [], Op.mk (OpKind.other 2) [6] [7] [] [],
         Op.mk OpKind.deviceReturn [7] [] [] []]).2.1 :=
  ⟨(hoisting_characterization [5]
      [Op.mk (OpKind.other 1) [5] [6] [] [], Op.mk (OpKind.other 2) [6] [7] [] [],
       Op.mk OpKind.deviceReturn [7] [] [] []]
      [Op.mk (OpKind.other 1) [5] [6] [] [], Op.mk (OpKind.other 2) [6] [7] [] []]
      [Op.mk OpKind.deviceReturn [7] [] [] []]).1.mpr ⟨rfl, rfl⟩,
   (hoisting_characterization [5]
      [Op.mk (OpKind.other 1) [5] [6] [] [], Op.mk (OpKind.other 2) [6] [7] [] [],
       Op.mk OpKind.deviceReturn [7] [] [] []] [] []).2.2.2.1 _
      (List.mem_cons_of_mem _ (List.mem_cons_of_mem _ (List.mem_cons_self _ _))) rfl⟩

theorem getD_eq_get (l : List Nat) (i : Nat) (h : i < l.length) :
    l.getD i 0 = l.get ⟨i, h⟩ := by
  simp [List.getD_eq_getElem?_getD, List.getElem?_eq_getElem h]

/-- C2: a shape-query whose operand is a block argument of the replicate
block with index `i` has its operand set, in place, to the replicate's
flat operand at position `n * i` (the replica-0 operand), without
changing the operation's kind. -/
theorem makeShapeOpInvariant_blockArg (env : ValEnv) (rep : ReplicateInfo)
    (freshv : Nat) (shape : Op) (input argNum : Nat)
    (hin : shape.operands.head? = some input)
    (hba : env.isBlockArgOf input = some (rep.blockId, argNum))
    (hrange : rep.n * argNum < rep.operands.length) :
    MakeShapeOpInvariant env rep freshv shape
      = ShapeRewrite.setOperand (rep.operands.get ⟨rep.n * argNum, hrange⟩) ∧
    ∀ pre post : List Op,
      applyShapeRewriteInBlock (MakeShapeOpInvariant env rep freshv shape) pre shape post
        = pre ++ [shape.withOperands [rep.operands.get ⟨rep.n * argNum, hrange⟩]] ++ post ∧
      (shape.withOperands [rep.operands.get ⟨rep.n * argNum, hrange⟩]).kind = shape.kind ∧
      (shape.withOperands [rep.operands.get ⟨rep.n * argNum, hrange⟩]).operands
        = [rep.operands.get ⟨rep.n * argNum, hrange⟩] := by
  have h1 : MakeShapeOpInvariant env rep freshv shape
      = ShapeRewrite.setOperand (rep.operands.get ⟨rep.n * argNum, hrange⟩) := by
    simp only [MakeShapeOpInvariant, hin, hba, if_true, getD_eq_get _ _ hrange]
  refine ⟨h1, fun pre post => ⟨?_, Op.kind_withOperands _ _, Op.operands_withOperands _ _⟩⟩
  rw [h1]
  rfl

/-- C2 witness: 3 replicas, block argument bound to flat operands
`[20, 21, 22]`: the shape-query ends with operand exactly `20`. -/
theorem makeShapeOpInvariant_blockArg_witness :
    MakeShapeOpInvariant
        ⟨fun v => if v = 30 then some (100, 0) else none, fun _ => none⟩
        ⟨3, [20, 21, 22], 100⟩ 99 (Op.mk OpKind.shape [30] [31] [Ty.tensor 9] [])
      = ShapeRewrite.setOperand 20 ∧
    applyShapeRewriteInBlock
        (MakeShapeOpInvariant
          ⟨fun v => if v = 30 then some (100, 0) else none, fun _ => none⟩
          ⟨3, [20, 21, 22], 100⟩ 99 (Op.mk OpKind.shape [30] [31] [Ty.tensor 9] []))
        [] (Op.mk OpKind.shape [30] [31] [Ty.tensor 9] []) []
      = [Op.mk OpKind.shape [20] [31] [Ty.tensor 9] []] :=
  ⟨(makeShapeOpInvariant_blockArg
      ⟨fun v => if v = 30 then some (100, 0) else none, fun _ => none⟩
      ⟨3, [20, 21, 22], 100⟩ 99 (Op.mk OpKind.shape [30] [31] [Ty.tensor 9] [])
      30 0 rfl rfl (by decide)).1,
   ((makeShapeOpInvariant_blockArg
      ⟨fun v => if v = 30 then some (100, 0) else none, fun _ => none⟩
      ⟨3, [20, 21, 22], 100⟩ 99 (Op.mk OpKind.shape [30] [31] [Ty.tensor 9] [])
      30 0 rfl rfl (by decide)).2 [] []).1⟩

theorem makeShapeOpInvariant_replaced (env : ValEnv) (rep : ReplicateInfo)
    (freshv : Nat) (shape : Op) (input : Nat) (inputDef : Op) (resource argNum : Nat)
    (hin : shape.operands.head? = some input)
    (hnb : env.isBlockArgOf input = none)
    (hdef : env.definingOp input = some inputDef)
    (hread : inputDef.kind = OpKind.readVariable)
    (hres : inputDef.operands.head? = some resource)
    (hba : env.isBlockArgOf resource = some (rep.blockId, argNum)) :
    MakeShapeOpInvariant env rep freshv shape
      = ShapeRewrite.replaced (Op.mk OpKind.variableShape
          [rep.operands.getD (rep.n * argNum) 0] [freshv] shape.resTypes []) := by
  simp only [MakeShapeOpInvariant, hin, hnb, hdef, hread, hres, hba]
  simp

theorem makeShapeOpInvariant_unchanged (env : ValEnv) (rep : ReplicateInfo)
    (freshv : Nat) (shape2 : Op) (input2 : Nat)
    (hin : shape2.operands.head? = some input2)
    (h1 : isReplicateBlockArg env rep input2 = false)
    (h2 : isReadOfReplicateBlockArg env rep input2 = false) :
    MakeShapeOpInvariant env rep freshv shape2 = ShapeRewrite.unchanged := by
  simp only [MakeShapeOpInvariant, hin]
  cases hb : env.isBlockArgOf input2 with
  | some p =>
    obtain ⟨owner, an⟩ := p
    dsimp only
    rw [if_neg]
    intro hEq
    rw [isReplicateBlockArg, hb] at h1
    simp [hEq] at h1
  | none =>
    cases hd : env.definingOp input2 with
    | none => rfl
    | some d =>
      dsimp only
      by_cases hk : d.kind = OpKind.readVariable
      · rw [if_pos hk]
        cases hr : d.operands.head? with
        | none => rfl
        | some resource =>
          dsimp only
          cases hb2 : env.isBlockArgOf resource with
          | none => rfl
          | some p2 =>
            obtain ⟨owner2, an2⟩ := p2
            dsimp only
            rw [if_neg]
            intro hEq2
            rw [isReadOfReplicateBlockArg, hb, hd] at h2
            simp [hk, hr, isReplicateBlockArg, hb2, hEq2] at h2
      · rw [if_neg hk]

/-- C3: a shape-query on the result of a resource-read whose resource is
a replicate block argument (index `i`, `n` replicas) is replaced by a new
resource-shape-query taking the flat operand at position `n * i`
directly; all uses of the original result are rebound to the new result
and the original shape-query is erased; a shape-query whose operand is
neither a replicate block argument nor such a resource-read result is
left unmodified. -/
theorem makeShapeOpInvariant_readVar_rewrite (env : ValEnv) (rep : ReplicateInfo)
    (freshv : Nat) (shape : Op) (input : Nat) (inputDef : Op)
    (resource argNum res : Nat)
    (hin : shape.operands.head? = some input)
    (hnb : env.isBlockArgOf input = none)
    (hdef : env.definingOp input = some inputDef)
    (hread : inputDef.kind = OpKind.readVariable)
    (hres : inputDef.operands.head? = some resource)
    (hba : env.isBlockArgOf resource = some (rep.blockId, argNum))
    (hrange : rep.n * argNum < rep.operands.length)
    (hshaperes : shape.results.head? = some res) :
    MakeShapeOpInvariant env rep freshv shape
      = ShapeRewrite.replaced (Op.mk OpKind.variableShape
          [rep.operands.get ⟨rep.n * argNum, hrange⟩] [freshv] shape.resTypes []) ∧
    (∀ pre post : List Op,
      applyShapeRewriteInBlock (MakeShapeOpInvariant env rep freshv shape) pre shape post
        = substUsesOps res freshv pre
            ++ [Op.mk OpKind.variableShape
                  [rep.operands.get ⟨rep.n * argNum, hrange⟩] [freshv] shape.resTypes []]
            ++ substUsesOps res freshv post) ∧
    (∀ shape2 : Op, ∀ input2 : Nat, shape2.operands.head? = some input2 →
      isReplicateBlockArg env rep input2 = false →
      isReadOfReplicateBlockArg env rep input2 = false →
      MakeShapeOpInvariant env rep freshv shape2 = ShapeRewrite.unchanged ∧
      ∀ pre post : List Op,
        applyShapeRewriteInBlock (MakeShapeOpInvariant env rep freshv shape2)
            pre shape2 post = pre ++ [shape2] ++ post) := by
  have h1 : MakeShapeOpInvariant env rep freshv shape
      = ShapeRewrite.replaced (Op.mk OpKind.variableShape
          [rep.operands.get ⟨rep.n * argNum, hrange⟩] [freshv] shape.resTypes []) := by
    rw [makeShapeOpInvariant_replaced env rep freshv shape input inputDef resource argNum
      hin hnb hdef hread hres hba, getD_eq_get _ _ hrange]
  refine ⟨h1, fun pre post => ?_, fun shape2 input2 hin2 hg1 hg2 => ?_⟩
  · rw [h1]
    simp only [applyShapeRewriteInBlock, hshaperes]
    rfl
  · have h2 := makeShapeOpInvariant_unchanged env rep freshv shape2 input2 hin2 hg1 hg2
    exact ⟨h2, fun pre post => by rw [h2]; rfl⟩

/-- C3 witness: a concrete read/shape pair inside a 3-replica construct,
and a concrete untouched shape-query. -/
theorem makeShapeOpInvariant_readVar_rewrite_witness :
    MakeShapeOpInvariant
        ⟨fun v => if v = 41 then some (100, 0) else none,
         fun v => if v = 40
           then some (Op.mk OpKind.readVariable [41] [40] [Ty.tensor 1] []) else none⟩
        ⟨3, [20, 21, 22], 100⟩ 77 (Op.mk OpKind.shape [40] [42] [Ty.tensor 2] [])
      = ShapeRewrite.replaced (Op.mk OpKind.variableShape [20] [77] [Ty.tensor 2] []) ∧
    applyShapeRewriteInBlock
        (MakeShapeOpInvariant
          ⟨fun v => if v = 41 then some (100, 0) else none,
           fun v => if v = 40
             then some (Op.mk OpKind.readVariable [41] [40] [Ty.tensor 1] []) else none⟩
          ⟨3, [20, 21, 22], 100⟩ 77 (Op.mk OpKind.shape [40] [42] [Ty.tensor 2] []))
        [Op.mk OpKind.readVariable [41] [40] [Ty.tensor 1] []]
        (Op.mk OpKind.shape [40] [42] [Ty.tensor 2] []) []
      = [Op.mk OpKind.readVariable [41] [40] [Ty.tensor 1] [],
         Op.mk OpKind.variableShape [20] [77] [Ty.tensor 2] []] ∧
    MakeShapeOpInvariant
        ⟨fun v => if v = 41 then some (100, 0) else none,
         fun v => if v = 40
           then some (Op.mk OpKind.readVariable [41] [40] [Ty.tensor 1] []) else none⟩
        ⟨3, [20, 21, 22], 100⟩ 77 (Op.mk OpKind.shape [50] [51] [] [])
      = ShapeRewrite.unchanged :=
  ⟨(makeShapeOpInvariant_readVar_rewrite
      ⟨fun v => if v = 41 then some (100, 0) else none,
       fun v => if v = 40
         then some (Op.mk OpKind.readVariable [41] [40] [Ty.tensor 1] []) else none⟩
      ⟨3, [20, 21, 22], 100⟩ 77 (Op.mk OpKind.shape [40] [42] [Ty.tensor 2] [])
      40 (Op.mk OpKind.readVariable [41] [40] [Ty.tensor 1] []) 41 0 42
      rfl rfl rfl rfl rfl rfl (by decide) rfl).1,
   (makeShapeOpInvariant_readVar_rewrite
      ⟨fun v => if v = 41 then some (100, 0) else none,
       fun v => if v = 40
         then some (Op.mk OpKind.readVariable [41] [40] [Ty.tensor 1] []) else none⟩
      ⟨3, [20, 21, 22], 100⟩ 77 (Op.mk OpKind.shape [40] [42] [Ty.tensor 2] [])
      40 (Op.mk OpKind.readVariable [41] [40] [Ty.tensor 1] []) 41 0 42
      rfl rfl rfl rfl rfl rfl (by decide) rfl).2.1
      [Op.mk OpKind.readVariable [41] [40] [Ty.tensor 1] []] [],
   ((makeShapeOpInvariant_readVar_rewrite
      ⟨fun v => if v = 41 then some (100, 0) else none,
       fun v => if v = 40
         then some (Op.mk OpKind.readVariable [41] [40] [Ty.tensor 1] []) else none⟩
      ⟨3, [20, 21, 22], 100⟩ 77 (Op.mk OpKind.shape [40] [42] [Ty.tensor 2] [])
      40 (Op.mk OpKind.readVariable [41] [40] [Ty.tensor 1] []) 41 0 42
      rfl rfl rfl rfl rfl rfl (by decide) rfl).2.2
      (Op.mk OpKind.shape [50] [51] [] []) 50 rfl rfl rfl).1⟩

theorem map_subst_id (a b : Nat) (l : List Nat) (h : a ∉ l) :
    (l.map fun v => if v = a then b else v) = l := by
  induction l with
  | nil => rfl
  | cons x xs ih =>
    simp only [List.map_cons]
    rw [if_neg (fun hx : x = a => h (hx ▸ List.mem_cons_self x xs)),
      ih fun hm => h (List.mem_cons_of_mem _ hm)]

mutual
theorem Op.substUses_id (a b : Nat) :
    ∀ op : Op, a ∉ op.walkOperands → Op.substUses a b op = op
  | .mk k operands results t rs, h => by
    simp only [Op.substUses]
    rw [map_subst_id a b operands fun hm => h (List.mem_append.mpr (Or.inl hm)),
      substUsesRgns_id a b rs fun hm => h (List.mem_append.mpr (Or.inr hm))]

theorem substUsesRgns_id (a b : Nat) :
    ∀ rs : List Rgn, a ∉ walkOperandsRgns rs → substUsesRgns a b rs = rs
  | [], _ => rfl
  | .mk bs :: rs, h => by
    simp only [substUsesRgns]
    rw [substUsesBlks_id a b bs fun hm => h (List.mem_append.mpr (Or.inl hm)),
      substUsesRgns_id a b rs fun hm => h (List.mem_append.mpr (Or.inr hm))]

theorem substUsesBlks_id (a b : Nat) :
    ∀ bs : List Blk, a ∉ walkOperandsBlks bs → substUsesBlks a b bs = bs
  | [], _ => rfl
  | .mk as os :: bs, h => by
    simp only [substUsesBlks]
    rw [substUsesOps_id a b os fun hm => h (List.mem_append.mpr (Or.inl hm)),
      substUsesBlks_id a b bs fun hm => h (List.mem_append.mpr (Or.inr hm))]

theorem substUsesOps_id (a b : Nat) :
    ∀ os : List Op, a ∉ walkOperandsOps os → substUsesOps a b os = os
  | [], _ => rfl
  | o :: os, h => by
    simp only [substUsesOps]
    rw [Op.substUses_id a b o fun hm => h (List.mem_append.mpr (Or.inl hm)),
      substUsesOps_id a b os fun hm => h (List.mem_append.mpr (Or.inr hm))]
end

theorem usesValue_false_iff (a : Nat) (op : Op) :
    Op.usesValue a op = false ↔ a ∉ op.walkOperands := by
  simp [Op.usesValue]

theorem substUsesOps_eq_map (a b : Nat) (os : List Op) :
    substUsesOps a b os = os.map (Op.substUses a b) := by
  induction os with
  | nil => rfl
  | cons o os ih => simp only [substUsesOps, List.map_cons, ih]

/-- C10: in the resource-read flavor of the shape-query rewrite, the
resource-read operation itself is left entirely unchanged and is not
erased: rebinding the shape result's uses does not touch it (it does not
use the shape result), and it reappears in the rewritten block at full
value, still consuming its original operand, even when the erased
shape-query was its only user. -/
theorem readVariable_not_erased (env : ValEnv) (rep : ReplicateInfo)
    (freshv : Nat) (shape : Op) (input : Nat) (inputDef : Op)
    (resource argNum res : Nat) (readOp : Op) (pre post : List Op)
    (hin : shape.operands.head? = some input)
    (hnb : env.isBlockArgOf input = none)
    (hdef : env.definingOp input = some inputDef)
    (hread : inputDef.kind = OpKind.readVariable)
    (hres : inputDef.operands.head? = some resource)
    (hba : env.isBlockArgOf resource = some (rep.blockId, argNum))
    (hshaperes : shape.results.head? = some res)
    (hmem : readOp ∈ pre ++ post)
    (hnouse : Op.usesValue res readOp = false) :
    Op.substUses res freshv readOp = readOp ∧
    readOp ∈ applyShapeRewriteInBlock (MakeShapeOpInvariant env rep freshv shape)
        pre shape post := by
  have hid : Op.substUses res freshv readOp = readOp :=
    Op.substUses_id res freshv readOp ((usesValue_false_iff res readOp).mp hnouse)
  refine ⟨hid, ?_⟩
  rw [makeShapeOpInvariant_replaced env rep freshv shape input inputDef resource argNum
    hin hnb hdef hread hres hba]
  simp only [applyShapeRewriteInBlock, hshaperes]
  show readOp ∈ substUsesOps res freshv pre
      ++ [Op.mk OpKind.variableShape [rep.operands.getD (rep.n * argNum) 0] [freshv]
            shape.resTypes []]
      ++ substUsesOps res freshv post
  rcases List.mem_append.mp hmem with hp | hp
  · refine List.mem_append.mpr (Or.inl (List.mem_append.mpr (Or.inl ?_)))
    rw [substUsesOps_eq_map]
    exact hid ▸ List.mem_map_of_mem _ hp
  · refine List.mem_append.mpr (Or.inr ?_)
    rw [substUsesOps_eq_map]
    exact hid ▸ List.mem_map_of_mem _ hp

/-- C10 witness: the concrete read of C3's scenario survives the rewrite
unchanged although its only user, the shape-query, was erased. -/
theorem readVariable_not_erased_witness :
    Op.substUses 42 77 (Op.mk OpKind.readVariable [41] [40] [Ty.tensor 1] [])
      = Op.mk OpKind.readVariable [41] [40] [Ty.tensor 1] [] ∧
    Op.mk OpKind.readVariable [41] [40] [Ty.tensor 1] [] ∈
      applyShapeRewriteInBlock
        (MakeShapeOpInvariant
          ⟨fun v => if v = 41 then some (100, 0) else none,
           fun v => if v = 40
             then some (Op.mk OpKind.readVariable [41] [40] [Ty.tensor 1] []) else none⟩
          ⟨3, [20, 21, 22], 100⟩ 77 (Op.mk OpKind.shape [40] [42] [Ty.tensor 2] []))
        [Op.mk OpKind.readVariable [41] [40] [Ty.tensor 1] []]
        (Op.mk OpKind.shape [40] [42] [Ty.tensor 2] []) [] :=
  readVariable_not_erased
    ⟨fun v => if v = 41 then some (100, 0) else none,
     fun v => if v = 40
       then some (Op.mk OpKind.readVariable [41] [40] [Ty.tensor 1] []) else none⟩
    ⟨3, [20, 21, 22], 100⟩ 77 (Op.mk OpKind.shape [40] [42] [Ty.tensor 2] [])
    40 (Op.mk OpKind.readVariable [41] [40] [Ty.tensor 1] []) 41 0 42
    (Op.mk OpKind.readVariable [41] [40] [Ty.tensor 1] [])
    [Op.mk OpKind.readVariable [41] [40] [Ty.tensor 1] []] []
    rfl rfl rfl rfl rfl rfl rfl (List.mem_append.mpr (Or.inl (List.mem_cons_self _ _))) rfl

theorem walkOperandsOps_append (l1 l2 : List Op) :
    walkOperandsOps (l1 ++ l2) = walkOperandsOps l1 ++ walkOperandsOps l2 := by
  induction l1 with
  | nil => rfl
  | cons o os ih => simp [walkOperandsOps, ih]

theorem definedValuesOps_append (l1 l2 : List Op) :
    definedValuesOps (l1 ++ l2) = definedValuesOps l1 ++ definedValuesOps l2 := by
  induction l1 with
  | nil => rfl
  | cons o os ih => simp [definedValuesOps, ih]

theorem hoistLoop_perm (outer : List Nat) (body : List Op) :
    ((hoistLoop outer body).1 ++ (hoistLoop outer body).2.1).Perm body := by
  induction body generalizing outer with
  | nil => simp [hoistLoop]
  | cons op rest ih =>
    simp only [hoistLoop]
    split
    · exact List.perm_middle.trans ((ih outer).cons op)
    · split
      · exact (ih _).cons op
      · exact List.perm_middle.trans ((ih outer).cons op)

mutual
theorem Op.walkOperands_substUses (a b : Nat) :
    ∀ op : Op, (Op.substUses a b op).walkOperands
      = op.walkOperands.map (fun v => if v = a then b else v)
  | .mk k operands results t rs => by
    simp only [Op.substUses, Op.walkOperands, walkOperandsRgns_substUses a b rs,
      List.map_append]

theorem walkOperandsRgns_substUses (a b : Nat) :
    ∀ rs : List Rgn, walkOperandsRgns (substUsesRgns a b rs)
      = (walkOperandsRgns rs).map (fun v => if v = a then b else v)
  | [] => rfl
  | .mk bs :: rs => by
    simp only [substUsesRgns, walkOperandsRgns, walkOperandsBlks_substUses a b bs,
      walkOperandsRgns_substUses a b rs, List.map_append]

theorem walkOperandsBlks_substUses (a b : Nat) :
    ∀ bs : List Blk, walkOperandsBlks (substUsesBlks a b bs)
      = (walkOperandsBlks bs).map (fun v => if v = a then b else v)
  | [] => rfl
  | .mk as os :: bs => by
    simp only [substUsesBlks, walkOperandsBlks, walkOperandsOps_substUses a b os,
      walkOperandsBlks_substUses a b bs, List.map_append]

theorem walkOperandsOps_substUses (a b : Nat) :
    ∀ os : List Op, walkOperandsOps (substUsesOps a b os)
      = (walkOperandsOps os).map (fun v => if v = a then b else v)
  | [] => rfl
  | o :: os => by
    simp only [substUsesOps, walkOperandsOps, Op.walkOperands_substUses a b o,
      walkOperandsOps_substUses a b os, List.map_append]
end

mutual
theorem Op.definedValues_substUses (a b : Nat) :
    ∀ op : Op, (Op.substUses a b op).definedValues = op.definedValues
  | .mk k operands results t rs => by
    simp only [Op.substUses, Op.definedValues, definedValuesRgns_substUses a b rs]

theorem definedValuesRgns_substUses (a b : Nat) :
    ∀ rs : List Rgn, definedValuesRgns (substUsesRgns a b rs) = definedValuesRgns rs
  | [] => rfl
  | .mk bs :: rs => by
    simp only [substUsesRgns, definedValuesRgns, definedValuesBlks_substUses a b bs,
      definedValuesRgns_substUses a b rs]

theorem definedValuesBlks_substUses (a b : Nat) :
    ∀ bs : List Blk, definedValuesBlks (substUsesBlks a b bs) = definedValuesBlks bs
  | [] => rfl
  | .mk as os :: bs => by
    simp only [substUsesBlks, definedValuesBlks, definedValuesOps_substUses a b os,
      definedValuesBlks_substUses a b bs]

theorem definedValuesOps_substUses (a b : Nat) :
    ∀ os : List Op, definedValuesOps (substUsesOps a b os) = definedValuesOps os
  | [] => rfl
  | o :: os => by
    simp only [substUsesOps, definedValuesOps, Op.definedValues_substUses a b o,
      definedValuesOps_substUses a b os]
end

theorem usesValue_substUses_false (a b : Nat) (op : Op) (hab : a ≠ b) :
    Op.usesValue a (Op.substUses a b op) = false := by
  rw [usesValue_false_iff, Op.walkOperands_substUses]
  intro hmem
  obtain ⟨v, hv, hva⟩ := List.mem_map.mp hmem
  by_cases hva2 : v = a
  · rw [if_pos hva2] at hva; exact hab hva.symm
  · rw [if_neg hva2] at hva; exact hva2 hva

theorem dropLast_append_getLast? (l : List Op) (x : Op) :
    l.getLast? = some x → l.dropLast ++ [x] = l := by
  induction l with
  | nil => intro h; cases h
  | cons a as ih =>
    cases as with
    | nil =>
      intro h
      simp at h
      rw [h]
      rfl
    | cons b bs =>
      intro h
      rw [List.getLast?_cons_cons] at h
      show a :: ((b :: bs).dropLast ++ [x]) = a :: b :: bs
      rw [ih h]

set_option maxHeartbeats 1000000 in
theorem wellUsed_structured (ext : List Nat) (fresh : Nat) (tys : List Ty)
    (args : List Nat) (ops : List Op) (term : Op)
    (hl : ops.getLast? = some term)
    (hwu : WellUsed ext ⟨tys, [Blk.mk args ops]⟩) :
    WellUsed ext ⟨tys, [Blk.mk args
      [Op.mk OpKind.graph [] (graphResultIds fresh tys.length) tys
        [Rgn.mk [Blk.mk []
          [Op.mk OpKind.island [] (islandResultIds fresh tys.length) (tys ++ [Ty.control])
            [Rgn.mk [Blk.mk []
              (ops.dropLast ++ [Op.mk OpKind.yield term.operands [] [] []])]],
           Op.mk OpKind.fetch
             (if (islandResultIds fresh tys.length).length ≠ 1
              then (islandResultIds fresh tys.length).dropLast
              else islandResultIds fresh tys.length) [] [] []]]],
       term.withOperands
         (graphResultIds fresh tys.length ++ term.operands.drop tys.length)]]⟩ := by
  have hsplit : ops.dropLast ++ [term] = ops := dropLast_append_getLast? ops term hl
  obtain ⟨tk, toper, tres, ttys, tregs⟩ := term
  rw [← hsplit] at hwu
  simp only [WellUsed, FuncData.usedValues, FuncData.definedValues, walkOperandsBlks,
    walkOperandsOps, walkOperandsOps_append, Op.walkOperands, walkOperandsRgns,
    definedValuesBlks, definedValuesOps, definedValuesOps_append, Op.definedValues,
    definedValuesRgns, Op.withOperands, Op.operands, List.mem_append, List.append_nil,
    List.not_mem_nil, or_false, false_or] at hwu ⊢
  intro v hv
  have hw := hwu v
  have hdropsub : v ∈ toper.drop tys.length → v ∈ toper :=
    fun hx => List.drop_subset _ _ hx
  have hfetch : v ∈ (if (islandResultIds fresh tys.length).length ≠ 1
      then (islandResultIds fresh tys.length).dropLast
      else islandResultIds fresh tys.length) → v ∈ islandResultIds fresh tys.length := by
    intro hx
    split at hx
    · exact List.dropLast_subset _ hx
    · exact hx
  tauto

theorem wellUsed_runOnFunction (ext : List Nat) (fresh : Nat) (f : FuncData)
    (hwu : WellUsed ext f) : WellUsed ext (runOnFunction fresh f) := by
  obtain ⟨tys, bs⟩ := f
  rcases bs with _ | ⟨⟨args, ops⟩, _ | ⟨b2, rest⟩⟩
  · rwa [runOnFunction_not_single_block _ _ _ (by simp)]
  · cases hl : ops.getLast? with
    | none => rwa [runOnFunction_noTerminator _ _ _ _ hl]
    | some term =>
      cases hg : alreadyGraphBody ops.dropLast with
      | true => rwa [runOnFunction_alreadyGraph _ _ _ _ _ hl hg]
      | false =>
        by_cases hr : term.kind = OpKind.ret
        · rw [runOnFunction_success_eq _ _ _ _ _ hl hg hr]
          exact wellUsed_structured ext fresh tys args ops term hl hwu
        · rwa [runOnFunction_notReturn _ _ _ _ _ hl hr]
  · rwa [runOnFunction_not_single_block _ _ _ (by simp)]

theorem blockWellUsed_shapeReplaced (ext : List Nat) (env : ValEnv)
    (rep : ReplicateInfo) (freshv : Nat) (skind : OpKind) (soper : List Nat)
    (res : Nat) (stys : List Ty) (input : Nat) (inputDef : Op)
    (resource argNum : Nat) (pre post : List Op)
    (hin : soper.head? = some input)
    (hnb : env.isBlockArgOf input = none)
    (hdef : env.definingOp input = some inputDef)
    (hread : inputDef.kind = OpKind.readVariable)
    (hres : inputDef.operands.head? = some resource)
    (hba : env.isBlockArgOf resource = some (rep.blockId, argNum))
    (hext : rep.operands.getD (rep.n * argNum) 0 ∈ ext)
    (hne0 : rep.operands.getD (rep.n * argNum) 0 ≠ res)
    (hfr : freshv ≠ res)
    (hwu : BlockWellUsed ext (pre ++ [Op.mk skind soper [res] stys []] ++ post)) :
    BlockWellUsed ext (applyShapeRewriteInBlock
        (MakeShapeOpInvariant env rep freshv (Op.mk skind soper [res] stys []))
        pre (Op.mk skind soper [res] stys []) post) ∧
    ∀ o ∈ applyShapeRewriteInBlock
        (MakeShapeOpInvariant env rep freshv (Op.mk skind soper [res] stys []))
        pre (Op.mk skind soper [res] stys []) post,
      Op.usesValue res o = false := by
  have heq : applyShapeRewriteInBlock
      (MakeShapeOpInvariant env rep freshv (Op.mk skind soper [res] stys []))
      pre (Op.mk skind soper [res] stys []) post
      = substUsesOps res freshv pre
        ++ [Op.mk OpKind.variableShape [rep.operands.getD (rep.n * argNum) 0] [freshv]
              stys []]
        ++ substUsesOps res freshv post := by
    rw [makeShapeOpInvariant_replaced env rep freshv (Op.mk skind soper [res] stys [])
      input inputDef resource argNum hin hnb hdef hread hres hba]
    rfl
  rw [heq]
  constructor
  · intro v hv
    have hWalk : walkOperandsOps (substUsesOps res freshv pre
        ++ [Op.mk OpKind.variableShape [rep.operands.getD (rep.n * argNum) 0] [freshv]
              stys []]
        ++ substUsesOps res freshv post)
        = (walkOperandsOps pre).map (fun w => if w = res then freshv else w)
          ++ [rep.operands.getD (rep.n * argNum) 0]
          ++ (walkOperandsOps post).map (fun w => if w = res then freshv else w) := by
      simp [walkOperandsOps_append, walkOperandsOps_substUses, walkOperandsOps,
        Op.walkOperands, walkOperandsRgns]
    have hDef : definedValuesOps (substUsesOps res freshv pre
        ++ [Op.mk OpKind.variableShape [rep.operands.getD (rep.n * argNum) 0] [freshv]
              stys []]
        ++ substUsesOps res freshv post)
        = definedValuesOps pre ++ [freshv] ++ definedValuesOps post := by
      simp [definedValuesOps_append, definedValuesOps_substUses, definedValuesOps,
        Op.definedValues, definedValuesRgns]
    have hwuW : walkOperandsOps (pre ++ [Op.mk skind soper [res] stys []] ++ post)
        = walkOperandsOps pre ++ soper ++ walkOperandsOps post := by
      simp [walkOperandsOps_append, walkOperandsOps, Op.walkOperands, walkOperandsRgns]
    have hwuD : definedValuesOps (pre ++ [Op.mk skind soper [res] stys []] ++ post)
        = definedValuesOps pre ++ [res] ++ definedValuesOps post := by
      simp [definedValuesOps_append, definedValuesOps, Op.definedValues, definedValuesRgns]
    rw [hWalk] at hv
    rw [hDef]
    rcases List.mem_append.mp hv with h1 | hpost2
    · rcases List.mem_append.mp h1 with hpre2 | hv0
      · obtain ⟨w, hw, hwv⟩ := List.mem_map.mp hpre2
        have hres2 := hwu w (by
          rw [hwuW]
          exact List.mem_append.mpr (Or.inl (List.mem_append.mpr (Or.inl hw))))
        rw [hwuD] at hres2
        by_cases hwres : w = res
        · rw [if_pos hwres] at hwv
          exact Or.inr (hwv ▸ List.mem_append.mpr (Or.inl
            (List.mem_append.mpr (Or.inr (List.mem_cons_self _ _)))))
        · rw [if_neg hwres] at hwv
          subst hwv
          rcases hres2 with hx | hx
          · exact Or.inl hx
          · rcases List.mem_append.mp hx with hy | hy
            · rcases List.mem_append.mp hy with hz | hz
              · exact Or.inr (List.mem_append.mpr (Or.inl (List.mem_append.mpr (Or.inl hz))))
              · exact absurd (List.mem_singleton.mp hz) hwres
            · exact Or.inr (List.mem_append.mpr (Or.inr hy))
      · have : v = rep.operands.getD (rep.n * argNum) 0 := List.mem_singleton.mp hv0
        exact Or.inl (this ▸ hext)
    · obtain ⟨w, hw, hwv⟩ := List.mem_map.mp hpost2
      have hres2 := hwu w (by
        rw [hwuW]
        exact List.mem_append.mpr (Or.inr hw))
      rw [hwuD] at hres2
      by_cases hwres : w = res
      · rw [if_pos hwres] at hwv
        exact Or.inr (hwv ▸ List.mem_append.mpr (Or.inl
          (List.mem_append.mpr (Or.inr (List.mem_cons_self _ _)))))
      · rw [if_neg hwres] at hwv
        subst hwv
        rcases hres2 with hx | hx
        · exact Or.inl hx
        · rcases List.mem_append.mp hx with hy | hy
          · rcases List.mem_append.mp hy with hz | hz
            · exact Or.inr (List.mem_append.mpr (Or.inl (List.mem_append.mpr (Or.inl hz))))
            · exact absurd (List.mem_singleton.mp hz) hwres
          · exact Or.inr (List.mem_append.mpr (Or.inr hy))
  · intro o ho
    rcases List.mem_append.mp ho with h1 | h2
    · rcases List.mem_append.mp h1 with hp | hnew
      · rw [substUsesOps_eq_map] at hp
        obtain ⟨o0, _, ho0⟩ := List.mem_map.mp hp
        exact ho0 ▸ usesValue_substUses_false res freshv o0 (fun h => hfr h.symm)
      · rw [List.mem_singleton.mp hnew, usesValue_false_iff]
        intro hmem
        simp only [Op.walkOperands, walkOperandsRgns, List.append_nil,
          List.mem_singleton] at hmem
        exact hne0 hmem.symm
    · rw [substUsesOps_eq_map] at h2
      obtain ⟨o0, _, ho0⟩ := List.mem_map.mp h2
      exact ho0 ▸ usesValue_substUses_false res freshv o0 (fun h => hfr h.symm)

theorem blockWellUsed_shapeSetOperand (ext : List Nat) (env : ValEnv)
    (rep : ReplicateInfo) (freshv : Nat) (skind : OpKind) (soper sres : List Nat)
    (stys : List Ty) (input argNum : Nat) (pre post : List Op)
    (hin : soper.head? = some input)
    (hba : env.isBlockArgOf input = some (rep.blockId, argNum))
    (hext : rep.operands.getD (rep.n * argNum) 0 ∈ ext)
    (hwu : BlockWellUsed ext (pre ++ [Op.mk skind soper sres stys []] ++ post)) :
    BlockWellUsed ext (applyShapeRewriteInBlock
        (MakeShapeOpInvariant env rep freshv (Op.mk skind soper sres stys []))
        pre (Op.mk skind soper sres stys []) post) := by
  have heq : applyShapeRewriteInBlock
      (MakeShapeOpInvariant env rep freshv (Op.mk skind soper sres stys []))
      pre (Op.mk skind soper sres stys []) post
      = pre ++ [Op.mk skind [rep.operands.getD (rep.n * argNum) 0] sres stys []] ++ post := by
    have h1 : MakeShapeOpInvariant env rep freshv (Op.mk skind soper sres stys [])
        = ShapeRewrite.setOperand (rep.operands.getD (rep.n * argNum) 0) := by
      simp only [MakeShapeOpInvariant, Op.operands, hin, hba, if_true]
    rw [h1]
    rfl
  rw [heq]
  intro v hv
  have hWalk : walkOperandsOps (pre
      ++ [Op.mk skind [rep.operands.getD (rep.n * argNum) 0] sres stys []] ++ post)
      = walkOperandsOps pre ++ [rep.operands.getD (rep.n * argNum) 0]
        ++ walkOperandsOps post := by
    simp [walkOperandsOps_append, walkOperandsOps, Op.walkOperands, walkOperandsRgns]
  have hDef : definedValuesOps (pre
      ++ [Op.mk skind [rep.operands.getD (rep.n * argNum) 0] sres stys []] ++ post)
      = definedValuesOps (pre ++ [Op.mk skind soper sres stys []] ++ post) := by
    simp [definedValuesOps_append, definedValuesOps, Op.definedValues, definedValuesRgns]
  have hwuW : walkOperandsOps (pre ++ [Op.mk skind soper sres stys []] ++ post)
      = walkOperandsOps pre ++ soper ++ walkOperandsOps post := by
    simp [walkOperandsOps_append, walkOperandsOps, Op.walkOperands, walkOperandsRgns]
  rw [hWalk] at hv
  rw [hDef]
  rcases List.mem_append.mp hv with h1 | hpost2
  · rcases List.mem_append.mp h1 with hpre2 | hv0
    · exact hwu v (by
        rw [hwuW]
        exact List.mem_append.mpr (Or.inl (List.mem_append.mpr (Or.inl hpre2))))
    · exact Or.inl ((List.mem_singleton.mp hv0) ▸ hext)
  · exact hwu v (by
      rw [hwuW]
      exact List.mem_append.mpr (Or.inr hpost2))

/-- C6: after each pass's mutation no dangling uses remain.  The
structuring pass preserves resolvability of every operand reference at
function level; the hoisting loop only moves operations — hoisted plus
remaining operations are a permutation of the original body, so nothing
is erased and no use-list entry can dangle; the shape-query rewrite
preserves block-level resolvability in both mutating flavors; and in the
replacing flavor the erased shape-query's result has zero remaining uses
in the rewritten block (no operation is erased while a result of it still
has uses). -/
theorem no_dangling_uses :
    (∀ ext : List Nat, ∀ fresh : Nat, ∀ f : FuncData,
      WellUsed ext f → WellUsed ext (runOnFunction fresh f)) ∧
    (∀ outer : List Nat, ∀ body : List Op,
      ((hoistLoop outer body).1 ++ (hoistLoop outer body).2.1).Perm body) ∧
    (∀ ext : List Nat, ∀ env : ValEnv, ∀ rep : ReplicateInfo, ∀ freshv : Nat,
      ∀ skind : OpKind, ∀ soper : List Nat, ∀ res : Nat, ∀ stys : List Ty,
      ∀ input : Nat, ∀ inputDef : Op, ∀ resource argNum : Nat, ∀ pre post : List Op,
      soper.head? = some input → env.isBlockArgOf input = none →
      env.definingOp input = some inputDef → inputDef.kind = OpKind.readVariable →
      inputDef.operands.head? = some resource →
      env.isBlockArgOf resource = some (rep.blockId, argNum) →
      rep.operands.getD (rep.n * argNum) 0 ∈ ext →
      rep.operands.getD (rep.n * argNum) 0 ≠ res → freshv ≠ res →
      BlockWellUsed ext (pre ++ [Op.mk skind soper [res] stys []] ++ post) →
      BlockWellUsed ext (applyShapeRewriteInBlock
          (MakeShapeOpInvariant env rep freshv (Op.mk skind soper [res] stys []))
          pre (Op.mk skind soper [res] stys []) post) ∧
      ∀ o ∈ applyShapeRewriteInBlock
          (MakeShapeOpInvariant env rep freshv (Op.mk skind soper [res] stys []))
          pre (Op.mk skind soper [res] stys []) post,
        Op.usesValue res o = false) ∧
    (∀ ext : List Nat, ∀ env : ValEnv, ∀ rep : ReplicateInfo, ∀ freshv : Nat,
      ∀ skind : OpKind, ∀ soper sres : List Nat, ∀ stys : List Ty,
      ∀ input argNum : Nat, ∀ pre post : List Op,
      soper.head? = some input →
      env.isBlockArgOf input = some (rep.blockId, argNum) →
      rep.operands.getD (rep.n * argNum) 0 ∈ ext →
      BlockWellUsed ext (pre ++ [Op.mk skind soper sres stys []] ++ post) →
      BlockWellUsed ext (applyShapeRewriteInBlock
          (MakeShapeOpInvariant env rep freshv (Op.mk skind soper sres stys []))
          pre (Op.mk skind soper sres stys []) post)) :=
  ⟨wellUsed_runOnFunction, hoistLoop_perm,
   fun ext env rep freshv skind soper res stys input inputDef resource argNum pre post
       h1 h2 h3 h4 h5 h6 h7 h8 h9 h10 =>
     blockWellUsed_shapeReplaced ext env rep freshv skind soper res stys input inputDef
       resource argNum pre post h1 h2 h3 h4 h5 h6 h7 h8 h9 h10,
   fun ext env rep freshv skind soper sres stys input argNum pre post h1 h2 h3 h4 =>
     blockWellUsed_shapeSetOperand ext env rep freshv skind soper sres stys input argNum
       pre post h1 h2 h3 h4⟩

/-- C6 witness: concrete instances of all four clauses — a structured
one-op function, a one-terminator hoisting run, and the two shape-rewrite
scenarios of C2/C3. -/
theorem no_dangling_uses_witness :
    WellUsed [1] (runOnFunction 7 ⟨[], [Blk.mk [1] [Op.mk OpKind.ret [] [] [] []]]⟩) ∧
    ((hoistLoop [] [Op.mk OpKind.deviceReturn [] [] [] []]).1
      ++ (hoistLoop [] [Op.mk OpKind.deviceReturn [] [] [] []]).2.1).Perm
      [Op.mk OpKind.deviceReturn [] [] [] []] ∧
    BlockWellUsed [20, 21, 22, 41]
      (applyShapeRewriteInBlock
        (MakeShapeOpInvariant
          ⟨fun v => if v = 41 then some (100, 0) else none,
           fun v => if v = 40
             then some (Op.mk OpKind.readVariable [41] [40] [Ty.tensor 1] []) else none⟩
          ⟨3, [20, 21, 22], 100⟩ 77 (Op.mk OpKind.shape [40] [42] [Ty.tensor 2] []))
        [Op.mk OpKind.readVariable [41] [40] [Ty.tensor 1] []]
        (Op.mk OpKind.shape [40] [42] [Ty.tensor 2] []) []) ∧
    BlockWellUsed [20, 30]
      (applyShapeRewriteInBlock
        (MakeShapeOpInvariant
          ⟨fun v => if v = 30 then some (100, 0) else none, fun _ => none⟩
          ⟨3, [20, 21, 22], 100⟩ 99 (Op.mk OpKind.shape [30] [31] [Ty.tensor 9] []))
        [] (Op.mk OpKind.shape [30] [31] [Ty.tensor 9] []) []) :=
  ⟨no_dangling_uses.1 [1] 7 ⟨[], [Blk.mk [1] [Op.mk OpKind.ret [] [] [] []]]⟩ (by unfold WellUsed; decide),
   no_dangling_uses.2.1 [] [Op.mk OpKind.deviceReturn [] [] [] []],
   (no_dangling_uses.2.2.1 [20, 21, 22, 41]
      ⟨fun v => if v = 41 then some (100, 0) else none,
       fun v => if v = 40
         then some (Op.mk OpKind.readVariable [41] [40] [Ty.tensor 1] []) else none⟩
      ⟨3, [20, 21, 22], 100⟩ 77 OpKind.shape [40] 42 [Ty.tensor 2] 40
      (Op.mk OpKind.readVariable [41] [40] [Ty.tensor 1] []) 41 0
      [Op.mk OpKind.readVariable [41] [40] [Ty.tensor 1] []] []
      rfl rfl rfl rfl rfl rfl (by decide) (by decide) (by decide) (by unfold BlockWellUsed; decide)).1,
   no_dangling_uses.2.2.2 [20, 30]
      ⟨fun v => if v = 30 then some (100, 0) else none, fun _ => none⟩
      ⟨3, [20, 21, 22], 100⟩ 99 OpKind.shape [30] [31] [Ty.tensor 9] 30 0 [] []
      rfl rfl (by decide) (by unfold BlockWellUsed; decide)⟩

end TFMlir
